import Mathlib

/-!
Verification of the scaffold CLI's template resolution and composition
pipeline, shallowly embedded from the Go sources:

* cli/internal/source/source.go   — URI parsing into a Source descriptor
* cli/internal/source/fetcher.go  — git cache paths and cached fetches
* cli/internal/registry/registry.go — tiered index loading, Resolve, List
* cli/cmd/init.go                 — variable collection
* internal/template (processor)   — path/content token substitution,
                                    binary detection, file processing

Go byte strings are modelled as `List Char` (every byte one char; the
token grammars are pure ASCII, so non-ASCII bytes only ever travel through
substitution as literal characters).  Go maps are modelled as association
lists with unique keys, built by `mapSet` (replace-or-append), looked up
by `mapGet` (first match).  Filesystem state is modelled as the list of
directory paths that exist on disk.
-/

namespace Scaffold

/-! ## String primitives (models of the Go strings package helpers) -/

/-- Model of strings.HasPrefix on character lists. -/
def hasPre : List Char → List Char → Bool
  | [], _ => true
  | _ :: _, [] => false
  | p :: ps, c :: cs => p == c && hasPre ps cs

/-- Model of strings.HasPrefix on strings. -/
def hasPreS (pat s : String) : Bool := hasPre pat.data s.data

/-- Model of strings.TrimPrefix. -/
def trimPreS (pat s : String) : String :=
  if hasPreS pat s then String.mk (s.data.drop pat.data.length) else s

/-- Model of strings.LastIndex for a one-character pattern: index of the
last occurrence of the character, if any. -/
def lastIdxOf (c : Char) : List Char → Option Nat
  | [] => none
  | a :: rest =>
    match lastIdxOf c rest with
    | some i => some (i + 1)
    | none => if a == c then some 0 else none

/-- Model of strings.Index(s, two-slash pattern): index of the first
occurrence of two consecutive slashes. -/
def idxOfSlash2 : List Char → Option Nat
  | '/' :: '/' :: _ => some 0
  | _ :: rest => (idxOfSlash2 rest).map (· + 1)
  | [] => none

/-- Model of strings.Contains (substring search). -/
def containsSub (pat : List Char) : List Char → Bool
  | [] => hasPre pat []
  | c :: rest => hasPre pat (c :: rest) || containsSub pat rest

/-! ## Association-list model of Go maps -/

/-- Lookup of a key in a Go map, modelled on its entry list. -/
def mapGet {α : Type} : List (String × α) → String → Option α
  | [], _ => none
  | (k0, v0) :: rest, k => if k0 = k then some v0 else mapGet rest k

/-- Assignment m[k] = v on a Go map, modelled on its entry list:
replace the existing binding or append a new one. -/
def mapSet {α : Type} : List (String × α) → String → α → List (String × α)
  | [], k, v => [(k, v)]
  | (k0, v0) :: rest, k, v =>
    if k0 = k then (k0, v) :: rest else (k0, v0) :: mapSet rest k v

/-! ## Source descriptor and URI parser (source.go) -/

/-- The Source struct of source.go.  Field names follow the Go struct:
`type` is the source kind ("git" / "file" / "url"), `uri` the original
URI, `url` the resolved URL or path. -/
structure GoSource where
  type : String
  uri : String
  url : String
  ref : String
  subdir : String
  provider : String
deriving DecidableEq

/-- parseGitSource of source.go: record the incoming uri, cut the ref
after the last '#', cut the subdir after the first two consecutive
slashes of what remains, and infer the provider by substring match. -/
def parseGitSource (uri : String) : GoSource :=
  let l0 := uri.data
  let refPair :=
    match lastIdxOf '#' l0 with
    | some i => (l0.take i, l0.drop (i + 1))
    | none => (l0, [])
  let l1 := refPair.1
  let subPair :=
    match idxOfSlash2 l1 with
    | some i => (l1.take i, l1.drop (i + 2))
    | none => (l1, [])
  let l2 := subPair.1
  let provider :=
    if containsSub "github.com".data l2 then "github"
    else if containsSub "gitlab.com".data l2 then "gitlab"
    else if containsSub "bitbucket.org".data l2 then "bitbucket"
    else ""
  { type := "git", uri := uri, url := String.mk l2,
    ref := String.mk refPair.2, subdir := String.mk subPair.2,
    provider := provider }

/-- parseFileSource of source.go: the path is stored verbatim. -/
def parseFileSource (path : String) : GoSource :=
  { type := "file", uri := path, url := path,
    ref := "", subdir := "", provider := "" }

/-- parseURLSource of source.go.  Go runs the input through url.Parse
(standard library); for the http/https inputs reaching this branch the
parse succeeds and returns the input, which is how it is modelled here. -/
def parseURLSource (uri : String) : GoSource :=
  { type := "url", uri := uri, url := uri,
    ref := "", subdir := "", provider := "" }

/-- Parse of source.go: empty input and unknown formats fail (`none`);
provider shorthands are rewritten to a provider base URL and continue as
git sources; git:/file: prefixes and bare http(s) URLs dispatch to the
per-kind parsers. -/
def Parse (uri : String) : Option GoSource :=
  if uri = "" then none
  else if hasPreS "github:" uri then
    some (parseGitSource ("https://github.com/" ++ trimPreS "github:" uri))
  else if hasPreS "gitlab:" uri then
    some (parseGitSource ("https://gitlab.com/" ++ trimPreS "gitlab:" uri))
  else if hasPreS "bitbucket:" uri then
    some (parseGitSource ("https://bitbucket.org/" ++ trimPreS "bitbucket:" uri))
  else if hasPreS "git:" uri then
    some (parseGitSource (trimPreS "git:" uri))
  else if hasPreS "file:" uri then
    some (parseFileSource (trimPreS "file:" uri))
  else if hasPreS "http://" uri || hasPreS "https://" uri then
    some (parseURLSource uri)
  else none

/-! ## Registry (registry.go) -/

/-- TemplateEntry of registry.go. -/
structure TemplateEntry where
  source : String
  description : String
deriving DecidableEq

/-- Index of registry.go: the templates.yaml structure, its three maps
modelled as entry lists. -/
structure Index where
  version : String
  official : List (String × TemplateEntry)
  community : List (String × TemplateEntry)
  aliases : List (String × String)

/-- ensureLoaded of registry.go: four tiers tried in order — the
SCAFFOLD_INDEX override file, the on-disk cache (a miss when absent,
stale, or unparsable), the remote fetch, and the embedded index.  Each
tier's outcome is an `Option Index`; `none` everywhere models total
failure (ensureLoaded returning an error). -/
def ensureLoadedT (override cached remote embedded : Option Index) : Option Index :=
  match override with
  | some idx => some idx
  | none =>
    match cached with
    | some idx => some idx
    | none =>
      match remote with
      | some idx => some idx
      | none => embedded

/-- Resolve of registry.go given the outcome of ensureLoaded.  When
loading failed the name is returned unchanged (the Go code returns
`name, nil`).  Otherwise: one alias hop, then official, then community;
with no hit the (possibly alias-rewritten) name is returned.  The Go
function's error value is always nil, so the model returns a plain
String. -/
def Resolve (load : Option Index) (name : String) : String :=
  match load with
  | none => name
  | some idx =>
    let name1 :=
      match mapGet idx.aliases name with
      | some target => target
      | none => name
    match mapGet idx.official name1 with
    | some entry => entry.source
    | none =>
      match mapGet idx.community name1 with
      | some entry => entry.source
      | none => name1

/-- Resolve across the four loading tiers. -/
def resolveTiers (override cached remote embedded : Option Index) (name : String) : String :=
  Resolve (ensureLoadedT override cached remote embedded) name

/-- List of registry.go: fold the official entries into a fresh map,
then the community entries on top of it. -/
def registryList (idx : Index) : List (String × TemplateEntry) :=
  let result := idx.official.foldl (fun acc kv => mapSet acc kv.1 kv.2) []
  idx.community.foldl (fun acc kv => mapSet acc kv.1 kv.2) result

/-! ## Fetcher (fetcher.go) -/

/-- The safe directory name cachePathFor builds: map each '/', ':' and
'@' of the URL to '_' (three ReplaceAll passes over disjoint single
characters, modelled as one character map), then append '_' and the ref
when the ref is nonempty.  The ref itself is not sanitized. -/
def cacheKey (url ref : String) : String :=
  let safe := String.mk (url.data.map fun c =>
    if c == '/' || c == ':' || c == '@' then '_' else c)
  if ref = "" then safe else safe ++ "_" ++ ref

/-- cachePathFor of fetcher.go: filepath.Join of the cache directory and
the safe name, modelled as concatenation with one separating slash (the
safe name contains no slashes, so Join performs no cleaning). -/
def cachePathFor (cacheDir url ref : String) : String :=
  cacheDir ++ "/" ++ cacheKey url ref

/-- resolveSubdir of fetcher.go: filepath.Join of base and subdir, the
empty subdir returning the base unchanged. -/
def resolveSubdir (basePath subdir : String) : String :=
  if subdir = "" then basePath else basePath ++ "/" ++ subdir

/-- fetchGit of fetcher.go over the filesystem model.  `disk` is the list
of cache directories that exist; `cloneOk` abstracts whether the external
git clone process would succeed.  A cache hit returns immediately with
the disk unchanged and no clone run; a miss runs the clone (adding the
cache path to the disk) or fails fatally (`none`).  The Bool in the
result records whether the clone operation was invoked. -/
def fetchGit (cacheDir : String) (src : GoSource) (cloneOk : Bool)
    (disk : List String) : Option (String × List String × Bool) :=
  let cachePath := cachePathFor cacheDir src.url src.ref
  if disk.contains cachePath then
    some (resolveSubdir cachePath src.subdir, disk, false)
  else if cloneOk then
    some (resolveSubdir cachePath src.subdir, cachePath :: disk, true)
  else none

/-! ## Template renderer (the internal/template processor)

The content-token expression is  brace-pair \s* ([a-zA-Z_][a-zA-Z0-9_]*)
\s* brace-pair ; the path-token expression is  __([a-zA-Z_][a-zA-Z0-9_]*)__ .
Go's regexp package applies leftmost-first (Perl) semantics;
ReplaceAllStringFunc rewrites each successive leftmost match and resumes
scanning right after it.  The scanners below model exactly that. -/

/-- RE2's Perl class backslash-s: space, tab, newline, form feed, carriage
return. -/
def isSpaceGo (c : Char) : Bool :=
  c == ' ' || c == '\t' || c == '\n' || c == '\x0c' || c == '\r'

/-- The class [a-zA-Z0-9_] of name characters. -/
def isWordChar (c : Char) : Bool :=
  c.isAlpha || c.isDigit || c == '_'

/-- The class [a-zA-Z_] opening a name. -/
def isIdentStart (c : Char) : Bool :=
  c.isAlpha || c == '_'

/-- The closing brace pair of the content-token expression at the current
position. -/
def close2 : List Char → Bool
  | '}' :: '}' :: _ => true
  | _ => false

/-- One attempt of the content-token expression at the head of the input.
The four inner pieces (\s*, name head, name tail, \s*) draw on pairwise
disjoint character classes, none containing a closing brace, so greedy
matching here needs no backtracking.  Returns the captured name and the
total length of the match. -/
def tryMatchVar : List Char → Option (String × Nat)
  | '{' :: '{' :: rest =>
    let sp1 := rest.takeWhile isSpaceGo
    match rest.dropWhile isSpaceGo with
    | c :: r2 =>
      if isIdentStart c then
        let w := r2.takeWhile isWordChar
        let r3 := r2.dropWhile isWordChar
        let sp2 := r3.takeWhile isSpaceGo
        if close2 (r3.dropWhile isSpaceGo) then
          some (String.mk (c :: w), sp1.length + w.length + sp2.length + 5)
        else none
      else none
    | [] => none
  | _ => none

/-- A piece of scanned content: a literal character outside every match,
or one whole match carrying its text and its captured name. -/
inductive CPiece where
  | lit : Char → CPiece
  | tok : List Char → String → CPiece
deriving DecidableEq

/-- The source text a content piece spans. -/
def cpieceText : CPiece → List Char
  | .lit c => [c]
  | .tok t _ => t

/-- Leftmost-first scan for content tokens: at each position try the
pattern; on a match emit a token piece spanning it and resume after it,
otherwise emit the character and advance by one.  The fuel only bounds
the recursion; the input length is always sufficient fuel. -/
def scanContentF : Nat → List Char → List CPiece
  | 0, _ => []
  | _ + 1, [] => []
  | fuel + 1, c :: rest =>
    match tryMatchVar (c :: rest) with
    | some (n, k) =>
      CPiece.tok ((c :: rest).take k) n :: scanContentF fuel ((c :: rest).drop k)
    | none => CPiece.lit c :: scanContentF fuel rest

/-- Scan of a whole content string. -/
def scanContent (cs : List Char) : List CPiece := scanContentF cs.length cs

/-- The replacement function substituteVariables passes to
ReplaceAllStringFunc: the binding's value when the captured name is
bound, the matched text itself otherwise. -/
def renderCPiece (vars : List (String × String)) : CPiece → List Char
  | .lit c => [c]
  | .tok t n =>
    match mapGet vars n with
    | some v => v.data
    | none => t

/-- substituteVariables of the processor, on character lists. -/
def substituteVariablesL (vars : List (String × String)) (cs : List Char) : List Char :=
  ((scanContent cs).map (renderCPiece vars)).flatten

/-- substituteVariables of the processor. -/
def substituteVariables (vars : List (String × String)) (content : String) : String :=
  String.mk (substituteVariablesL vars content.data)

/-- The closing underscore pair of the path-token expression at the
current position: two characters when the input starts with two
underscores. -/
def closeLen : List Char → Option Nat
  | '_' :: '_' :: _ => some 2
  | _ => none

/-- Greedy, backtracking continuation of the path-token capture: prefer
extending the capture through a word character; when the rest of the
pattern cannot then complete — the recursive attempt fails — give the
character back and match the closing underscore pair here.  Returns how many
characters the continuation and the close consume together. -/
def goPathLen : List Char → Option Nat
  | [] => none
  | c :: rest =>
    if isWordChar c then
      match goPathLen rest with
      | some k => some (k + 1)
      | none => closeLen (c :: rest)
    else closeLen (c :: rest)

/-- One attempt of the path-token expression at the head of the input:
underscore pair, a name-opening character, the greedy continuation, the
closing underscore pair.  Returns the total match length. -/
def tryMatchPath : List Char → Option Nat
  | '_' :: '_' :: c :: rest =>
    if isIdentStart c then (goPathLen rest).map (· + 3) else none
  | _ => none

/-- A piece of a scanned path: a literal character or one whole match. -/
inductive PPiece where
  | lit : Char → PPiece
  | tok : List Char → PPiece
deriving DecidableEq

/-- The source text a path piece spans. -/
def ppieceText : PPiece → List Char
  | .lit c => [c]
  | .tok t => t

/-- Leftmost-first scan for path tokens. -/
def scanPathF : Nat → List Char → List PPiece
  | 0, _ => []
  | _ + 1, [] => []
  | fuel + 1, c :: rest =>
    match tryMatchPath (c :: rest) with
    | some k => PPiece.tok ((c :: rest).take k) :: scanPathF fuel ((c :: rest).drop k)
    | none => PPiece.lit c :: scanPathF fuel rest

/-- Scan of a whole path string. -/
def scanPath (cs : List Char) : List PPiece := scanPathF cs.length cs

/-- strings.Trim(s, underscore): drop every leading and every trailing
underscore. -/
def trimUnder (l : List Char) : List Char :=
  ((l.dropWhile fun c => c == '_').reverse.dropWhile fun c => c == '_').reverse

/-- The replacement function substituteInPath passes to
ReplaceAllStringFunc: the looked-up name is the whole matched text with
its boundary underscores trimmed (the Go code trims the match, not the
capture), the matched text itself standing when that name is unbound. -/
def renderPPiece (vars : List (String × String)) : PPiece → List Char
  | .lit c => [c]
  | .tok t =>
    match mapGet vars (String.mk (trimUnder t)) with
    | some v => v.data
    | none => t

/-- substituteInPath of the processor, on character lists. -/
def substituteInPathL (vars : List (String × String)) (cs : List Char) : List Char :=
  ((scanPath cs).map (renderPPiece vars)).flatten

/-- substituteInPath of the processor. -/
def substituteInPath (vars : List (String × String)) (path : String) : String :=
  String.mk (substituteInPathL vars path.data)

/-- isBinary of the processor: some byte among the first 512 is NUL.
The model takes the file as readable; on an I/O error the Go function
answers false. -/
def isBinary (content : List Char) : Bool :=
  (content.take 512).any fun c => c == '\x00'

/-- copyFile of the processor: a byte-for-byte copy. -/
def copyFile (content : List Char) : List Char := content

/-- processFile of the processor: binary files are byte-copied verbatim,
text files go through content substitution. -/
def processFile (vars : List (String × String)) (content : List Char) : List Char :=
  if isBinary content then copyFile content else substituteVariablesL vars content

/-! ## Variable collection (cmd/init.go) -/

/-- A manifest variable declaration (config.Variable), with the fields
the collection code reads. -/
structure GoVariable where
  name : String
  description : String
  type : String
  default : String
  required : Bool
  choices : List String
  pattern : String
deriving DecidableEq

/-- The project slug: strings.ToLower (modelled per character on ASCII
letters) followed by ReplaceAll of '-' with '_' (a single-character
ReplaceAll is a character map). -/
def goSlug (projectName : String) : String :=
  String.mk ((projectName.data.map Char.toLower).map fun c =>
    if c = '-' then '_' else c)

/-- Split at the first '=' only, the way strings.SplitN with limit 2
does; a flag without '=' yields nothing and is skipped. -/
def splitEq : List Char → Option (List Char × List Char)
  | [] => none
  | c :: rest =>
    if c = '=' then some ([], rest)
    else
      match splitEq rest with
      | some kv => some (c :: kv.1, kv.2)
      | none => none

/-- One --var flag parsed as key=value. -/
def splitKV (s : String) : Option (String × String) :=
  (splitEq s.data).map fun kv => (String.mk kv.1, String.mk kv.2)

/-- The seeding stage of collectVariables: project_name, then
project_slug. -/
def seedVars (projectName : String) : List (String × String) :=
  mapSet (mapSet [] "project_name" projectName) "project_slug" (goSlug projectName)

/-- The --var stage of collectVariables: each key=value flag assigned in
order; assignment overwrites any existing binding, so a later duplicate
key wins and a flag can replace a seeded value. -/
def applyOverrides (flags : List String) (vars0 : List (String × String)) :
    List (String × String) :=
  flags.foldl (fun acc v =>
    match splitKV v with
    | some kv => mapSet acc kv.1 kv.2
    | none => acc) vars0

/-- The defaults stage of collectVariables: a declared default is taken
only when the name is still unbound and the default is nonempty. -/
def applyDefaults (mvars : List GoVariable) (vars0 : List (String × String)) :
    List (String × String) :=
  mvars.foldl (fun acc v =>
    if mapGet acc v.name = none ∧ v.default ≠ "" then mapSet acc v.name v.default
    else acc) vars0

/-- collectVariables of cmd/init.go: seed, then --var flags, then
manifest defaults. -/
def collectVariables (flags : List String) (mvars : List GoVariable)
    (projectName : String) : List (String × String) :=
  applyDefaults mvars (applyOverrides flags (seedVars projectName))

/-- The prompting loop of runInit: every declared variable still unbound
is asked interactively (the survey answer abstracted as a function of the
name) and assigned; bound names are not asked. -/
def promptStage (answers : String → String) (mvars : List GoVariable)
    (vars0 : List (String × String)) : List (String × String) :=
  mvars.foldl (fun acc v =>
    if mapGet acc v.name = none then mapSet acc v.name (answers v.name) else acc) vars0

end Scaffold

namespace Scaffold

/-! ## Supporting lemmas for map folds -/

theorem mapGet_mapSet_self {α : Type} (m : List (String × α)) (k : String) (v : α) :
    mapGet (mapSet m k v) k = some v := by
  induction m with
  | nil => simp [mapSet, mapGet]
  | cons hd tl ih =>
    obtain ⟨k0, v0⟩ := hd
    by_cases h : k0 = k
    · simp [mapSet, mapGet, h]
    · simp [mapSet, mapGet, h, ih]

theorem mapGet_mapSet_ne {α : Type} (m : List (String × α)) (k k' : String) (v : α)
    (h : k' ≠ k) : mapGet (mapSet m k' v) k = mapGet m k := by
  induction m with
  | nil => simp [mapSet, mapGet, h]
  | cons hd tl ih =>
    obtain ⟨k0, v0⟩ := hd
    by_cases h0 : k0 = k'
    · subst h0
      simp [mapSet, mapGet, h]
    · simp [mapSet, h0]
      by_cases h1 : k0 = k
      · simp [mapGet, h1]
      · simp [mapGet, h1, ih]

theorem mapGet_foldl_mapSet_notMem {α : Type} (l : List (String × α))
    (base : List (String × α)) (k : String) (h : k ∉ l.map Prod.fst) :
    mapGet (l.foldl (fun acc kv => mapSet acc kv.1 kv.2) base) k = mapGet base k := by
  induction l generalizing base with
  | nil => simp
  | cons hd tl ih =>
    obtain ⟨k0, v0⟩ := hd
    simp only [List.map_cons, List.mem_cons] at h
    push_neg at h
    simp only [List.foldl_cons]
    rw [ih (mapSet base k0 v0) h.2, mapGet_mapSet_ne base k k0 v0 (fun e => h.1 e.symm)]

theorem mapGet_foldl_mapSet {α : Type} (l : List (String × α))
    (base : List (String × α)) (k : String) (v : α)
    (hnd : (l.map Prod.fst).Nodup) (hget : mapGet l k = some v) :
    mapGet (l.foldl (fun acc kv => mapSet acc kv.1 kv.2) base) k = some v := by
  induction l generalizing base with
  | nil => simp [mapGet] at hget
  | cons hd tl ih =>
    obtain ⟨k0, v0⟩ := hd
    simp only [List.map_cons, List.nodup_cons] at hnd
    simp only [List.foldl_cons]
    by_cases h : k0 = k
    · subst h
      simp [mapGet] at hget
      subst hget
      rw [mapGet_foldl_mapSet_notMem tl (mapSet base k0 v0) k0 hnd.1,
        mapGet_mapSet_self]
    · simp only [mapGet, if_neg h] at hget
      exact ih (mapSet base k0 v0) hnd.2 hget

/-- C2: Resolve is total.  The embedded Resolve returns a plain String for
every loading outcome (the Go function's error result is the constant nil),
and whatever the four tiers produced — including `none` everywhere, i.e.
total failure — the result equals the input whenever no alias, official,
or community entry matches it. -/
theorem c2_resolve_total (override cached remote embedded : Option Index) (name : String)
    (h : ∀ idx, ensureLoadedT override cached remote embedded = some idx →
      mapGet idx.aliases name = none ∧ mapGet idx.official name = none ∧
      mapGet idx.community name = none) :
    resolveTiers override cached remote embedded name = name := by
  unfold resolveTiers Resolve
  cases hl : ensureLoadedT override cached remote embedded with
  | none => rfl
  | some idx =>
    obtain ⟨ha, ho, hc⟩ := h idx hl
    simp [ha, ho, hc]

/-- C2 witness: all four tiers fail and the name passes through. -/
theorem c2_resolve_total_witness :
    resolveTiers none none none none "my-template" = "my-template" :=
  c2_resolve_total none none none none "my-template"
    (fun idx h => by simp [ensureLoadedT] at h)

/-- C3: alias resolution is exactly one hop: with aliases a↦b, b↦c and an
official entry for c, resolving "a" yields the string "b" — not the source
recorded for c. -/
theorem c3_alias_single_hop :
    Resolve (some { version := "1",
                    official := [("c", ⟨"src-of-c", "desc-c"⟩)],
                    community := [],
                    aliases := [("a", "b"), ("b", "c")] }) "a" = "b" ∧
    ("b" : String) ≠ "src-of-c" :=
  ⟨by decide, by decide⟩

/-- C4 counterexample: with "x" present in both maps, List binds "x" to the
community entry, not the official one — the community loop runs second and
overwrites.  This refutes the claim that the official entry is kept. -/
theorem c4_counterexample :
    mapGet (registryList { version := "1",
                           official := [("x", ⟨"official-src", "o"⟩)],
                           community := [("x", ⟨"community-src", "c"⟩)],
                           aliases := [] }) "x" = some ⟨"community-src", "c"⟩ ∧
    (⟨"community-src", "c"⟩ : TemplateEntry) ≠ ⟨"official-src", "o"⟩ :=
  ⟨by decide, by decide⟩

/-- C4 (amended): for every index whose community entries have distinct
names (as Go map entries do) and every name present in both maps, List
binds that name to the community entry; the colliding official entry is
the one dropped. -/
theorem c4_amended_community_wins (idx : Index) (name : String) (eo ec : TemplateEntry)
    (hnd : (idx.community.map Prod.fst).Nodup)
    (_ho : mapGet idx.official name = some eo)
    (hc : mapGet idx.community name = some ec) :
    mapGet (registryList idx) name = some ec := by
  unfold registryList
  exact mapGet_foldl_mapSet idx.community _ name ec hnd hc

/-- C4 witness: the amended statement at a concrete colliding index. -/
theorem c4_amended_witness :
    mapGet (registryList { version := "1",
                           official := [("x", ⟨"official-src", "o"⟩)],
                           community := [("x", ⟨"community-src", "c"⟩)],
                           aliases := [] }) "x" = some ⟨"community-src", "c"⟩ :=
  c4_amended_community_wins
    { version := "1",
      official := [("x", ⟨"official-src", "o"⟩)],
      community := [("x", ⟨"community-src", "c"⟩)],
      aliases := [] }
    "x" ⟨"official-src", "o"⟩ ⟨"community-src", "c"⟩
    (by decide) (by decide) (by decide)

/-- A fold whose step either leaves the accumulator alone or assigns a
currently unbound key preserves every existing binding. -/
theorem mapGet_foldl_preserve {β : Type}
    (f : List (String × String) → β → List (String × String))
    (hf : ∀ acc b, f acc b = acc ∨
      ∃ k w, mapGet acc k = none ∧ f acc b = mapSet acc k w) :
    ∀ (l : List β) (vars0 : List (String × String)) (name val : String),
      mapGet vars0 name = some val → mapGet (l.foldl f vars0) name = some val := by
  intro l
  induction l with
  | nil =>
    intro vars0 name val h
    simpa using h
  | cons b tl ih =>
    intro vars0 name val h
    simp only [List.foldl_cons]
    apply ih
    rcases hf vars0 b with heq | ⟨k, w, hk, heq⟩
    · rw [heq]
      exact h
    · rw [heq]
      have hne : k ≠ name := by
        intro e
        rw [e, h] at hk
        cases hk
      rw [mapGet_mapSet_ne vars0 name k w hne]
      exact h

theorem applyDefaults_preserves (mvars : List GoVariable)
    (vars0 : List (String × String)) (name val : String)
    (h : mapGet vars0 name = some val) :
    mapGet (applyDefaults mvars vars0) name = some val := by
  unfold applyDefaults
  refine mapGet_foldl_preserve _ ?_ mvars vars0 name val h
  intro acc v
  by_cases hc : mapGet acc v.name = none ∧ v.default ≠ ""
  · exact Or.inr ⟨v.name, v.default, hc.1, if_pos hc⟩
  · exact Or.inl (if_neg hc)

theorem promptStage_preserves (answers : String → String) (mvars : List GoVariable)
    (vars0 : List (String × String)) (name val : String)
    (h : mapGet vars0 name = some val) :
    mapGet (promptStage answers mvars vars0) name = some val := by
  unfold promptStage
  refine mapGet_foldl_preserve _ ?_ mvars vars0 name val h
  intro acc v
  by_cases hc : mapGet acc v.name = none
  · exact Or.inr ⟨v.name, answers v.name, hc, if_pos hc⟩
  · exact Or.inl (if_neg hc)

/-! ## Supporting lemmas for the scanners -/

theorem tryMatchVar_pos {cs : List Char} {n : String} {k : Nat}
    (h : tryMatchVar cs = some (n, k)) : 0 < k := by
  unfold tryMatchVar at h
  repeat' split at h
  all_goals simp_all
  all_goals omega

theorem tryMatchPath_pos {cs : List Char} {k : Nat}
    (h : tryMatchPath cs = some k) : 0 < k := by
  unfold tryMatchPath at h
  repeat' split at h
  all_goals simp_all
  obtain ⟨a, -, hk⟩ := h
  omega

theorem scanContentF_flatten (fuel : Nat) :
    ∀ cs : List Char, cs.length ≤ fuel →
      ((scanContentF fuel cs).map cpieceText).flatten = cs := by
  induction fuel with
  | zero =>
    intro cs h
    have hnil : cs = [] := List.eq_nil_of_length_eq_zero (Nat.le_zero.mp h)
    subst hnil
    rfl
  | succ fuel ih =>
    intro cs h
    cases cs with
    | nil => rfl
    | cons c rest =>
      cases hm : tryMatchVar (c :: rest) with
      | none =>
        simp only [scanContentF, hm, List.map_cons, List.flatten_cons, cpieceText]
        rw [ih rest (by simp only [List.length_cons] at h; omega)]
        simp
      | some nk =>
        obtain ⟨n, k⟩ := nk
        have hk : 0 < k := tryMatchVar_pos hm
        simp only [scanContentF, hm, List.map_cons, List.flatten_cons, cpieceText]
        rw [ih ((c :: rest).drop k)
          (by simp only [List.length_drop, List.length_cons]
              simp only [List.length_cons] at h
              omega)]
        exact List.take_append_drop k (c :: rest)

theorem scanPathF_flatten (fuel : Nat) :
    ∀ cs : List Char, cs.length ≤ fuel →
      ((scanPathF fuel cs).map ppieceText).flatten = cs := by
  induction fuel with
  | zero =>
    intro cs h
    have hnil : cs = [] := List.eq_nil_of_length_eq_zero (Nat.le_zero.mp h)
    subst hnil
    rfl
  | succ fuel ih =>
    intro cs h
    cases cs with
    | nil => rfl
    | cons c rest =>
      cases hm : tryMatchPath (c :: rest) with
      | none =>
        simp only [scanPathF, hm, List.map_cons, List.flatten_cons, ppieceText]
        rw [ih rest (by simp only [List.length_cons] at h; omega)]
        simp
      | some k =>
        have hk : 0 < k := tryMatchPath_pos hm
        simp only [scanPathF, hm, List.map_cons, List.flatten_cons, ppieceText]
        rw [ih ((c :: rest).drop k)
          (by simp only [List.length_drop, List.length_cons]
              simp only [List.length_cons] at h
              omega)]
        exact List.take_append_drop k (c :: rest)

theorem dropWhile_head_ne {p : Char → Bool} :
    ∀ {l : List Char} {c : Char}, (l.dropWhile p).head? = some c → p c = false := by
  intro l
  induction l with
  | nil => intro c h; simp [List.dropWhile] at h
  | cons a t ih =>
    intro c h
    rw [List.dropWhile_cons] at h
    split at h
    · exact ih h
    · rename_i hpa
      simp only [List.head?_cons, Option.some.injEq] at h
      subst h
      simpa using hpa

theorem trimUnder_decomp (l : List Char) :
    l.dropWhile (fun x => x == '_') =
      trimUnder l ++
        ((l.dropWhile fun x => x == '_').reverse.takeWhile fun x => x == '_').reverse := by
  conv_lhs =>
    rw [← List.reverse_reverse (l.dropWhile fun x => x == '_'),
      ← List.takeWhile_append_dropWhile (p := fun x => x == '_')
        (l := (l.dropWhile fun x => x == '_').reverse)]
  rw [List.reverse_append]
  rfl

theorem trimUnder_head_ne {l : List Char} {c : Char}
    (h : (trimUnder l).head? = some c) : (c == '_') = false := by
  apply dropWhile_head_ne (l := l) (p := fun x => x == '_')
  rw [trimUnder_decomp l]
  cases htr : trimUnder l with
  | nil => rw [htr] at h; simp at h
  | cons a t =>
    rw [htr] at h
    simp only [List.head?_cons, Option.some.injEq] at h
    subst h
    simp

theorem trimUnder_getLast_ne {l : List Char} {c : Char}
    (h : (trimUnder l).getLast? = some c) : (c == '_') = false := by
  unfold trimUnder at h
  rw [List.getLast?_reverse] at h
  have hres := dropWhile_head_ne (p := fun x => x == '_') h
  simpa using hres

/-- C8: fetching the same git Source twice is idempotent on the cache.
Whatever the first Fetch did (hit or successful clone), the second call
computes the same cache path, finds it on disk, and returns the same
local path with the disk unchanged and the clone not invoked — even when
the network (`ok2`) would now fail. -/
theorem c8_fetch_idempotent (cacheDir : String) (src : GoSource) (ok1 ok2 : Bool)
    (disk : List String) (p : String) (st : List String) (b : Bool)
    (h : fetchGit cacheDir src ok1 disk = some (p, st, b)) :
    fetchGit cacheDir src ok2 st = some (p, st, false) := by
  unfold fetchGit at h ⊢
  by_cases hc : disk.contains (cachePathFor cacheDir src.url src.ref)
  · simp only [hc, if_true, Option.some.injEq, Prod.mk.injEq] at h
    obtain ⟨hp, hst, _⟩ := h
    subst hp
    subst hst
    rw [if_pos hc]
  · simp only [hc, if_false, Bool.false_eq_true] at h
    cases ok1 with
    | false => simp at h
    | true =>
      simp only [if_true, Option.some.injEq, Prod.mk.injEq] at h
      obtain ⟨hp, hst, _⟩ := h
      subst hp
      subst hst
      have hmem : (cachePathFor cacheDir src.url src.ref :: disk).contains
          (cachePathFor cacheDir src.url src.ref) = true := by
        simp [List.contains_cons]
      rw [if_pos hmem]

/-- C8 witness: a concrete miss-then-hit pair of fetches. -/
theorem c8_fetch_idempotent_witness :
    fetchGit "cache" { type := "git", uri := "git:https://h/r", url := "https://h/r",
                       ref := "main", subdir := "sub", provider := "" } false
      ["cache/https___h_r_main"] =
      some ("cache/https___h_r_main/sub", ["cache/https___h_r_main"], false) :=
  c8_fetch_idempotent "cache"
    { type := "git", uri := "git:https://h/r", url := "https://h/r",
      ref := "main", subdir := "sub", provider := "" }
    true false [] "cache/https___h_r_main/sub" ["cache/https___h_r_main"] true
    (by decide)

/-- C9: the git cache key is not injective: the URL "a/b" with empty ref
and the URL "a" with ref "b" are distinct pairs whose cache paths are
equal under every cache directory, and a fetch of the second source hits
the cache entry created for the first without invoking the clone. -/
theorem c9_cache_key_collision (cacheDir : String) :
    cachePathFor cacheDir "a/b" "" = cachePathFor cacheDir "a" "b" ∧
    (("a/b", "") : String × String) ≠ (("a", "b") : String × String) ∧
    fetchGit "cache" { type := "git", uri := "git:a", url := "a", ref := "b",
                       subdir := "", provider := "" } false
      [cachePathFor "cache" "a/b" ""] =
      some ("cache/a_b", [cachePathFor "cache" "a/b" ""], false) := by
  refine ⟨?_, by decide, by decide⟩
  unfold cachePathFor
  rw [show cacheKey "a/b" "" = cacheKey "a" "b" from by decide]

/-- C5 counterexample: the seed gives project_name the value "y", yet the
caller-supplied override flag project_name=x — a stage processed after
seeding — replaces it: collection returns "x", refuting the claim that a
value once given (here by the seed) is never overwritten by a later
stage. -/
theorem c5_counterexample :
    mapGet (seedVars "y") "project_name" = some "y" ∧
    mapGet (collectVariables ["project_name=x"] [] "y") "project_name" = some "x" ∧
    ("x" : String) ≠ "y" :=
  ⟨by decide, by decide, by decide⟩

/-- C5 (amended): bindings accumulate monotonically once the override
stage has run: whatever value a name holds after seeding and the --var
flags (each later flag overwriting earlier ones and even the seed), the
manifest-defaults stage and the interactive prompting loop never replace
it — both assign only names still unbound. -/
theorem c5_amended_no_overwrite_after_overrides
    (flags : List String) (mvars : List GoVariable) (projectName : String)
    (answers : String → String) (name val : String)
    (h : mapGet (applyOverrides flags (seedVars projectName)) name = some val) :
    mapGet (promptStage answers mvars (collectVariables flags mvars projectName)) name
      = some val := by
  unfold collectVariables
  exact promptStage_preserves answers mvars _ name val
    (applyDefaults_preserves mvars _ name val h)

/-- C5 witness: an override value "1" for name "a" survives a manifest
declaring a competing default and an interactive pass that would answer
differently. -/
theorem c5_amended_witness :
    mapGet (promptStage (fun _ => "asked")
      [⟨"a", "", "string", "dflt", false, [], ""⟩]
      (collectVariables ["a=1"] [⟨"a", "", "string", "dflt", false, [], ""⟩] "proj"))
      "a" = some "1" :=
  c5_amended_no_overwrite_after_overrides ["a=1"]
    [⟨"a", "", "string", "dflt", false, [], ""⟩] "proj" (fun _ => "asked") "a" "1"
    (by decide)

/-- C6: rendering never fails on an unbound token.  Both substitution
functions are total (Go's ReplaceAllStringFunc has no error channel, and
the model returns a plain String); the output is the concatenation of the
rendered scan pieces, the pieces concatenate back to exactly the input,
and every token piece whose looked-up name is unbound renders to its own
matched text — so each unbound content token and each unbound path token
stands character-for-character unchanged in the output. -/
theorem c6_unbound_tokens_left_verbatim (vars : List (String × String)) (s : String) :
    substituteVariables vars s =
      String.mk (((scanContent s.data).map (renderCPiece vars)).flatten) ∧
    ((scanContent s.data).map cpieceText).flatten = s.data ∧
    (∀ t n, CPiece.tok t n ∈ scanContent s.data → mapGet vars n = none →
      renderCPiece vars (CPiece.tok t n) = t) ∧
    substituteInPath vars s =
      String.mk (((scanPath s.data).map (renderPPiece vars)).flatten) ∧
    ((scanPath s.data).map ppieceText).flatten = s.data ∧
    (∀ t, PPiece.tok t ∈ scanPath s.data →
      mapGet vars (String.mk (trimUnder t)) = none →
      renderPPiece vars (PPiece.tok t) = t) := by
  refine ⟨rfl, scanContentF_flatten _ _ (le_refl _), ?_, rfl,
    scanPathF_flatten _ _ (le_refl _), ?_⟩
  · intro t n _ hn
    simp [renderCPiece, hn]
  · intro t _ hn
    simp [renderPPiece, hn]

/-- C6 witness: with no bindings at all, the sole content token of
a brace-pair string and the sole path token of an underscore string
render to their own matched text. -/
theorem c6_unbound_tokens_witness :
    renderCPiece [] (CPiece.tok "\x7b\x7b missing \x7d\x7d".data "missing") =
      "\x7b\x7b missing \x7d\x7d".data ∧
    renderPPiece [] (PPiece.tok "__missing__".data) = "__missing__".data :=
  ⟨(c6_unbound_tokens_left_verbatim [] "\x7b\x7b missing \x7d\x7d").2.2.1
      "\x7b\x7b missing \x7d\x7d".data "missing" (by decide) (by decide),
   (c6_unbound_tokens_left_verbatim [] "__missing__").2.2.2.2.2
      "__missing__".data (by decide) (by decide)⟩

/-- C7: a file is classified binary exactly when some byte among its
first 512 bytes is NUL, and every binary-classified file is processed as
a byte-for-byte copy with no content substitution. -/
theorem c7_binary_copied_verbatim (content : List Char) (vars : List (String × String)) :
    (isBinary content = true ↔ ∃ c ∈ content.take 512, c = '\x00') ∧
    (isBinary content = true → processFile vars content = content) := by
  constructor
  · unfold isBinary
    rw [List.any_eq_true]
    constructor
    · rintro ⟨c, hc, he⟩
      exact ⟨c, hc, by simpa using he⟩
    · rintro ⟨c, hc, he⟩
      exact ⟨c, hc, by simp [he]⟩
  · intro hb
    unfold processFile
    rw [if_pos hb]
    rfl

/-- C7 witness: a concrete three-byte file with a NUL in the middle is
binary and copied unchanged even under a binding whose token occurs in
the bytes. -/
theorem c7_binary_witness :
    isBinary ('a' :: '\x00' :: 'b' :: []) = true ∧
    processFile [("a", "X")] ('a' :: '\x00' :: 'b' :: []) =
      'a' :: '\x00' :: 'b' :: [] :=
  ⟨by decide,
   (c7_binary_copied_verbatim ('a' :: '\x00' :: 'b' :: []) [("a", "X")]).2 (by decide)⟩

/-- C10: path-token substitution trims every leading and trailing
underscore of the matched token before the bindings lookup.  A binding
whose own name begins or ends with an underscore therefore can never be
consulted: removing it never changes any substituted path.  Concretely,
the token of three leading underscores around "name" resolves against
"name" — replaced when "name" is bound, left verbatim when only "_name"
is. -/
theorem c10_path_trim_lookup :
    (∀ (n v : String) (vars : List (String × String)) (p : String),
      n.data.head? = some '_' ∨ n.data.getLast? = some '_' →
      substituteInPath ((n, v) :: vars) p = substituteInPath vars p) ∧
    substituteInPath [("name", "VAL")] "___name__" = "VAL" ∧
    substituteInPath [("_name", "VAL")] "___name__" = "___name__" := by
  refine ⟨?_, by decide, by decide⟩
  intro n v vars p hn
  unfold substituteInPath substituteInPathL
  congr 1
  refine congrArg List.flatten (List.map_congr_left ?_)
  intro piece hmem
  cases piece with
  | lit c => rfl
  | tok t =>
    have hne : n ≠ String.mk (trimUnder t) := by
      intro he
      have hdata : n.data = trimUnder t := by rw [he]
      cases hn with
      | inl hh =>
        rw [hdata] at hh
        have hb := trimUnder_head_ne hh
        simp at hb
      | inr hh =>
        rw [hdata] at hh
        have hb := trimUnder_getLast_ne hh
        simp at hb
    simp only [renderPPiece, mapGet, if_neg hne]

/-- C10 witness: a binding named with a leading underscore is invisible to
path substitution. -/
theorem c10_path_trim_witness :
    substituteInPath [("_x", "v")] "see ___x__ here" =
      substituteInPath [] "see ___x__ here" :=
  c10_path_trim_lookup.1 "_x" "v" [] "see ___x__ here" (Or.inl (by decide))

/-- C1: the spec and the repository's own test suite expect
Parse "github:org/repo//sub#ref" to yield URL "https://github.com/org/repo",
subdir "sub", ref "ref" and provider "github" — the subdir being cut at the
first "//" after the scheme.  The code instead cuts at the first "//"
anywhere, which is the "//" of "https://" itself: the URL degenerates to
"https:", the subdir swallows the host, and no provider is detected.
This theorem evaluates the embedded parser at that input, exhibiting the
divergence. -/
theorem c1_parse_divergence :
    Parse "github:org/repo//sub#ref" =
      some { type := "git", uri := "https://github.com/org/repo//sub#ref",
             url := "https:", ref := "ref",
             subdir := "github.com/org/repo//sub", provider := "" } ∧
    ("https:" : String) ≠ "https://github.com/org/repo" ∧
    ("github.com/org/repo//sub" : String) ≠ "sub" ∧
    ("" : String) ≠ "github" := by
  refine ⟨by decide, by decide, by decide, by decide⟩

end Scaffold
